import Mathlib

/-!
Verification of the base32z codec in `oxenc/base32z.h`.

Shallow embedding conventions:
* a byte is a `Nat` (meaningful values `< 256`, matching `unsigned char`);
* a symbol is a `Char` (C++ `char` code units; meaningful values `< 256`);
* the streaming encoder (`base32z_encoder` plus the `std::copy` loop of
  `to_base32z`) and the streaming decoder (`base32z_decoder` plus the output
  loop of `from_base32z`) are modelled as tail-recursive list transformers.
  The C++ loops terminate because each iteration either consumes input or
  strictly decreases the buffered bit count; here that termination argument
  is expressed with an explicit fuel parameter that counts loop iterations.
  The top-level wrappers pass exactly the number of iterations the loop
  performs (one per produced unit, plus the final end-of-range test for the
  encoder), and the length theorems below prove that this fuel is never
  exhausted on the corresponding inputs.
-/

set_option maxRecDepth 100000

/-- The forward alphabet `detail::b32z_table::to_b32z_lut`: the encoded
character of every 0-31 (5-bit) value. -/
def to_b32z_lut : List Char :=
  ['y', 'b', 'n', 'd', 'r', 'f', 'g', '8', 'e', 'j', 'k', 'm', 'c', 'p', 'q', 'x',
   'o', 't', '1', 'u', 'w', 'i', 's', 'z', 'a', '3', '4', '5', 'h', '7', '6', '9']

/-- The 256-entry inverse table `detail::b32z_table::from_b32z_lut`, built
exactly as the `consteval` constructor of `b32z_table` does: zero-initialised,
then for every value `c < 32` the entry at index `to_b32z_lut[c]` is set to
`c`, and, when that character is a lowercase letter, the entry at its
uppercase variant as well.  Modelled as a function on byte values. -/
def from_b32z_lut : Nat → Nat :=
  (List.range 32).foldl
    (fun t c =>
      let x := (to_b32z_lut.getD c 'y').toNat
      let t1 : Nat → Nat := fun i => if i = x then c else t i
      if Char.toNat 'a' ≤ x ∧ x ≤ Char.toNat 'z' then
        fun i => if i = x - Char.toNat 'a' + Char.toNat 'A' then c else t1 i
      else t1)
    (fun _ => 0)

/-- `b32z_table::from_b32z`: convert a base32z encoded character into its
0-31 value (any non-alphabet byte yields 0).  The `% 256` models the C++
`static_cast<unsigned char>` applied to every input code unit. -/
def from_b32z (c : Char) : Nat := from_b32z_lut (c.toNat % 256)

/-- `b32z_table::to_b32z`: convert a 0-31 value into its base32z character.
The C++ code indexes a 32-element array; values `≥ 32` never occur (proved
below), and are mapped to the junk character `' '` here. -/
def to_b32z (v : Nat) : Char := to_b32z_lut.getD v ' '

/-- `to_base32z_size`: number of characters required to encode the given
number of bytes. -/
def to_base32z_size (byte_size : Nat) : Nat := (byte_size * 8 + 4) / 5

/-- `from_base32z_size`: number of bytes obtained when decoding a base32z
string of the given length, or 0 when that length is not a valid base32z
encoded string length. -/
def from_base32z_size (b32z_size : Nat) : Nat :=
  if b32z_size * 5 % 8 < 5 then b32z_size * 5 / 8 else 0

/-- `is_base32z`: every character must be in the base32z alphabet and the
length must be achievable by `to_base32z` (length `% 8 ∉ {1, 3, 6}`).  A
character is accepted iff its table value is nonzero or it is `y`/`Y` (the
one symbol that legitimately decodes to 0). -/
def is_base32z (s : List Char) : Bool :=
  if s.length % 8 == 1 || s.length % 8 == 3 || s.length % 8 == 6 then false
  else
    s.all fun ch =>
      !(from_b32z_lut (ch.toNat % 256) == 0 &&
        !(ch.toNat % 256 == Char.toNat 'y' || ch.toNat % 256 == Char.toNat 'Y'))

/-- The iteration of `base32z_encoder::operator++`/`operator*` together with
the `std::copy` loop of `to_base32z`: the state `(r, bits, rem)` holds the
bit accumulator `r`, the number of significant bits `bits`, and `rem`, the
input from the iterator `_it` (inclusive) to `_end`.  The loop stops when
`_it == _end` and `bits == 0`.  `fuel` counts loop iterations (one per
emitted character, plus one final end test); callers pass enough. -/
def encode_steps : Nat → Nat → Nat → List Nat → List Char
  | 0, _, _, _ => []
  | fuel + 1, r, bits, rem =>
    match rem, bits with
    | [], 0 => []
    | rem, bits =>
      let c := to_b32z (r >>> (bits - 5))
      let bits1 := bits - 5
      let r1 := r &&& ((1 <<< bits1) - 1)
      if bits1 < 5 then
        match rem with
        | [] => c :: encode_steps fuel r1 bits1 []
        | _ :: rem1 =>
          match rem1 with
          | b :: _ => c :: encode_steps fuel ((r1 <<< 8) ||| b) (bits1 + 8) rem1
          | [] =>
            if 0 < bits1 then c :: encode_steps fuel (r1 <<< (5 - bits1)) 5 []
            else c :: encode_steps fuel r1 bits1 []
      else c :: encode_steps fuel r1 bits1 rem

/-- `to_base32z`: encode a byte sequence.  The encoder starts with the first
byte loaded (8 significant bits) when the input is nonempty, and emits
exactly `to_base32z_size` characters. -/
def to_base32z (l : List Nat) : List Char :=
  match l with
  | [] => []
  | b :: _ => encode_steps (to_base32z_size l.length + 1) b 8 l

/-- `base32z_decoder::load_in`: shift the decoded 5-bit value of the next
character into the accumulator. -/
def load_in (i bits : Nat) (c : Char) : Nat × Nat :=
  ((i <<< 5) ||| from_b32z c, bits + 5)

/-- `base32z_decoder::load_byte`: decode one character, and when fewer than
8 bits are accumulated advance and decode a second one.  The input list is
the portion of the input from `_it` (inclusive) to `_end`; the result is
`(in, bits, rest, atEnd)` where `rest` is the not-yet-consumed input and
`atEnd` tells whether `_it` has reached `_end` (which stops the decode
loop, discarding the fewer-than-8 leftover bits). -/
def load_byte (i bits : Nat) : List Char → Nat × Nat × List Char × Bool
  | [] => (i, bits, [], true)
  | c :: r =>
    let p1 := load_in i bits c
    if p1.2 < 8 then
      match r with
      | [] => (p1.1, p1.2, [], true)
      | c2 :: r2 =>
        let p2 := load_in p1.1 p1.2 c2
        (p2.1, p2.2, r2, false)
    else (p1.1, p1.2, r, false)

/-- The iteration of `base32z_decoder::operator++`/`operator*` together with
the output loop of `from_base32z`: each iteration emits the top 8 bits of
the accumulator, discards them, and reloads via `load_byte`; the loop stops
when `_it` reaches `_end`.  `fuel` counts iterations (one per emitted
byte); callers pass enough. -/
def decode_steps : Nat → Nat → Nat → List Char → List Nat
  | 0, _, _, _ => []
  | fuel + 1, i, bits, rest =>
    let out := i >>> (bits - 8)
    match rest with
    | [] => [out]
    | _ :: _ =>
      let i1 := i &&& ((1 <<< (bits - 8)) - 1)
      match load_byte i1 (bits - 8) rest with
      | (_, _, _, true) => [out]
      | (i2, b2, r2, false) => out :: decode_steps fuel i2 b2 r2

/-- `from_base32z`: decode a character sequence.  The constructor performs
an initial `load_byte`; the loop then runs while `_it ≠ _end`, producing
`⌊5·length/8⌋` bytes. -/
def from_base32z (s : List Char) : List Nat :=
  match s with
  | [] => []
  | _ :: _ =>
    match load_byte 0 0 s with
    | (_, _, _, true) => []
    | (i, bits, rest, false) => decode_steps (s.length * 5 / 8) i bits rest

/-- Uppercase variant of a base32z character: letters are mapped to their
uppercase forms, other characters (the digits of the alphabet) are kept. -/
def upperB32 (c : Char) : Char :=
  if Char.toNat 'a' ≤ c.toNat ∧ c.toNat ≤ Char.toNat 'z' then Char.ofNat (c.toNat - 32) else c

/-- Uppercase forms of the 24 letters of the base32z alphabet. -/
def b32z_upper_chars : List Char :=
  ['Y', 'B', 'N', 'D', 'R', 'F', 'G', 'E', 'J', 'K', 'M', 'C', 'P', 'Q',
   'X', 'O', 'T', 'U', 'W', 'I', 'S', 'Z', 'A', 'H']

/-- All characters accepted by the codec: the 32 canonical lowercase symbols
together with the uppercase forms of its letters. -/
def b32z_allowed_chars : List Char := to_b32z_lut ++ b32z_upper_chars

/-- Induction on a byte list in blocks of five, matching the 5-byte/8-symbol
period of the encoder. -/
def five_block_rec {motive : List Nat → Prop}
    (h0 : motive []) (h1 : ∀ a, motive [a]) (h2 : ∀ a b, motive [a, b])
    (h3 : ∀ a b c, motive [a, b, c]) (h4 : ∀ a b c d, motive [a, b, c, d])
    (h5 : ∀ a b c d e rest, motive rest → motive (a :: b :: c :: d :: e :: rest)) :
    ∀ l, motive l
  | [] => h0
  | [a] => h1 a
  | [a, b] => h2 a b
  | [a, b, c] => h3 a b c
  | [a, b, c, d] => h4 a b c d
  | [a, b, c, d, e] => h5 a b c d e [] h0
  | a :: b :: c :: d :: e :: f :: rest =>
    h5 a b c d e (f :: rest) (five_block_rec h0 h1 h2 h3 h4 h5 (f :: rest))

/-- Induction on a character list in blocks of eight, matching the
8-symbol/5-byte period of the decoder. -/
def eight_block_rec {motive : List Char → Prop}
    (g0 : motive []) (g1 : ∀ a, motive [a]) (g2 : ∀ a b, motive [a, b])
    (g3 : ∀ a b c, motive [a, b, c]) (g4 : ∀ a b c d, motive [a, b, c, d])
    (g5 : ∀ a b c d e, motive [a, b, c, d, e])
    (g6 : ∀ a b c d e f, motive [a, b, c, d, e, f])
    (g7 : ∀ a b c d e f g, motive [a, b, c, d, e, f, g])
    (g8 : ∀ a b c d e f g h rest, motive rest →
      motive (a :: b :: c :: d :: e :: f :: g :: h :: rest)) :
    ∀ s, motive s
  | [] => g0
  | [a] => g1 a
  | [a, b] => g2 a b
  | [a, b, c] => g3 a b c
  | [a, b, c, d] => g4 a b c d
  | [a, b, c, d, e] => g5 a b c d e
  | [a, b, c, d, e, f] => g6 a b c d e f
  | [a, b, c, d, e, f, g] => g7 a b c d e f g
  | a :: b :: c :: d :: e :: f :: g :: h :: rest =>
    g8 a b c d e f g h rest (eight_block_rec g0 g1 g2 g3 g4 g5 g6 g7 g8 rest)

lemma and_mask1 (x : Nat) : x &&& 1 = x % 2 := Nat.and_pow_two_sub_one_eq_mod x 1
lemma and_mask3 (x : Nat) : x &&& 3 = x % 4 := Nat.and_pow_two_sub_one_eq_mod x 2
lemma and_mask7 (x : Nat) : x &&& 7 = x % 8 := Nat.and_pow_two_sub_one_eq_mod x 3
lemma and_mask15 (x : Nat) : x &&& 15 = x % 16 := Nat.and_pow_two_sub_one_eq_mod x 4
lemma and_mask31 (x : Nat) : x &&& 31 = x % 32 := Nat.and_pow_two_sub_one_eq_mod x 5
lemma and_mask63 (x : Nat) : x &&& 63 = x % 64 := Nat.and_pow_two_sub_one_eq_mod x 6
lemma and_mask127 (x : Nat) : x &&& 127 = x % 128 := Nat.and_pow_two_sub_one_eq_mod x 7

lemma or_mul256 (x b : Nat) (h : b < 256) : x * 256 ||| b = x * 256 + b := by
  have h2 : (2 : Nat) ^ 8 = 256 := by norm_num
  calc x * 256 ||| b = 2 ^ 8 * x ||| b := by rw [h2, Nat.mul_comm]
    _ = 2 ^ 8 * x + b := (Nat.mul_add_lt_is_or (by omega) x).symm
    _ = x * 256 + b := by rw [h2, Nat.mul_comm]

lemma or_mul32 (x v : Nat) (h : v < 32) : x * 32 ||| v = x * 32 + v := by
  have h2 : (2 : Nat) ^ 5 = 32 := by norm_num
  calc x * 32 ||| v = 2 ^ 5 * x ||| v := by rw [h2, Nat.mul_comm]
    _ = 2 ^ 5 * x + v := (Nat.mul_add_lt_is_or (by omega) x).symm
    _ = x * 32 + v := by rw [h2, Nat.mul_comm]

lemma enc_tail2 (a b : Nat) (hb : b < 256) :
    to_base32z [a, b] = [to_b32z (a / 8), to_b32z (a % 8 * 4 + b / 64),
      to_b32z (b / 2 % 32), to_b32z (b % 2 * 16)] := by
  simp [to_base32z, to_base32z_size, encode_steps, and_mask1, and_mask3, and_mask7,
    and_mask15, and_mask31, and_mask63, and_mask127, or_mul256 _ _ hb,
    Nat.shiftRight_eq_div_pow, Nat.shiftLeft_eq]
  refine ⟨by congr 1; omega, by congr 1; omega, by congr 1; omega⟩

lemma enc_tail3 (a b c : Nat) (hb : b < 256) (hc : c < 256) :
    to_base32z [a, b, c] = [to_b32z (a / 8), to_b32z (a % 8 * 4 + b / 64),
      to_b32z (b / 2 % 32), to_b32z (b % 2 * 16 + c / 16), to_b32z (c % 16 * 2)] := by
  simp [to_base32z, to_base32z_size, encode_steps, and_mask1, and_mask3, and_mask7,
    and_mask15, and_mask31, and_mask63, and_mask127, or_mul256 _ _ hb, or_mul256 _ _ hc,
    Nat.shiftRight_eq_div_pow, Nat.shiftLeft_eq]
  and_intros <;> (congr 1; omega)

lemma enc_tail4 (a b c d : Nat) (hb : b < 256) (hc : c < 256) (hd : d < 256) :
    to_base32z [a, b, c, d] = [to_b32z (a / 8), to_b32z (a % 8 * 4 + b / 64),
      to_b32z (b / 2 % 32), to_b32z (b % 2 * 16 + c / 16), to_b32z (c % 16 * 2 + d / 128),
      to_b32z (d / 4 % 32), to_b32z (d % 4 * 8)] := by
  simp [to_base32z, to_base32z_size, encode_steps, and_mask1, and_mask3, and_mask7,
    and_mask15, and_mask31, and_mask63, and_mask127, or_mul256 _ _ hb, or_mul256 _ _ hc,
    or_mul256 _ _ hd, Nat.shiftRight_eq_div_pow, Nat.shiftLeft_eq]
  and_intros <;> (congr 1; omega)

lemma enc_tail5 (a b c d e : Nat) (hb : b < 256) (hc : c < 256) (hd : d < 256)
    (he : e < 256) :
    to_base32z [a, b, c, d, e] = [to_b32z (a / 8), to_b32z (a % 8 * 4 + b / 64),
      to_b32z (b / 2 % 32), to_b32z (b % 2 * 16 + c / 16), to_b32z (c % 16 * 2 + d / 128),
      to_b32z (d / 4 % 32), to_b32z (d % 4 * 8 + e / 32), to_b32z (e % 32)] := by
  simp [to_base32z, to_base32z_size, encode_steps, and_mask1, and_mask3, and_mask7,
    and_mask15, and_mask31, and_mask63, and_mask127, or_mul256 _ _ hb, or_mul256 _ _ hc,
    or_mul256 _ _ hd, or_mul256 _ _ he, Nat.shiftRight_eq_div_pow, Nat.shiftLeft_eq]
  and_intros <;> (congr 1; omega)

lemma enc_block (a b c d e f0 : Nat) (r : List Nat) (fl : Nat)
    (hb : b < 256) (hc : c < 256) (hd : d < 256) (he : e < 256) :
    encode_steps (fl + 8) a 8 (a :: b :: c :: d :: e :: f0 :: r) =
      [to_b32z (a / 8), to_b32z (a % 8 * 4 + b / 64), to_b32z (b / 2 % 32),
       to_b32z (b % 2 * 16 + c / 16), to_b32z (c % 16 * 2 + d / 128),
       to_b32z (d / 4 % 32), to_b32z (d % 4 * 8 + e / 32), to_b32z (e % 32)]
      ++ encode_steps fl f0 8 (f0 :: r) := by
  simp [encode_steps, and_mask1, and_mask3, and_mask7,
    and_mask15, and_mask31, and_mask63, and_mask127, or_mul256 _ _ hb, or_mul256 _ _ hc,
    or_mul256 _ _ hd, or_mul256 _ _ he, Nat.shiftRight_eq_div_pow, Nat.shiftLeft_eq]
  and_intros <;> (congr 1; omega)

lemma from_b32z_lut_lt : ∀ n, n < 256 → from_b32z_lut n < 32 := by decide

lemma from_b32z_lt (c : Char) : from_b32z c < 32 :=
  from_b32z_lut_lt _ (Nat.mod_lt _ (by omega))

lemma or_from_b32z (x : Nat) (c : Char) :
    x * 32 ||| from_b32z c = x * 32 + from_b32z c :=
  or_mul32 _ _ (from_b32z_lt c)

lemma from5_cons2 (c1 c2 : Char) (rest : List Char) :
    from_base32z (c1 :: c2 :: rest) =
      decode_steps ((rest.length + 2) * 5 / 8)
        (from_b32z c1 * 32 + from_b32z c2) 10 rest := by
  simp [from_base32z, load_byte, load_in, or_from_b32z, Nat.shiftLeft_eq]

lemma dec_step8 (f i : Nat) (rest : List Char) (hf : f = rest.length * 5 / 8) :
    decode_steps (f + 1) i 8 rest = i :: from_base32z rest := by
  subst hf
  match rest with
  | [] => simp [decode_steps, from_base32z]
  | [w] => simp [decode_steps, from_base32z, load_byte, load_in]
  | w1 :: w2 :: t =>
    simp [decode_steps, from_base32z, load_byte, load_in, or_from_b32z,
      Nat.shiftLeft_eq, Nat.shiftRight_eq_div_pow]

lemma dec_block (i fl : Nat) (c3 c4 c5 c6 c7 c8 : Char) (rest : List Char) :
    decode_steps (fl + 5) i 10 (c3 :: c4 :: c5 :: c6 :: c7 :: c8 :: rest) =
      i / 4 ::
      ((i % 4 * 32 + from_b32z c3) * 32 + from_b32z c4) / 16 ::
      ((((i % 4 * 32 + from_b32z c3) * 32 + from_b32z c4) % 16 * 32 + from_b32z c5) / 2) ::
      ((((((i % 4 * 32 + from_b32z c3) * 32 + from_b32z c4) % 16 * 32 + from_b32z c5) % 2 * 32
          + from_b32z c6) * 32 + from_b32z c7) / 8) ::
      decode_steps (fl + 1)
        ((((((i % 4 * 32 + from_b32z c3) * 32 + from_b32z c4) % 16 * 32 + from_b32z c5) % 2 * 32
          + from_b32z c6) * 32 + from_b32z c7) % 8 * 32 + from_b32z c8) 8 rest := by
  simp [decode_steps, load_byte, load_in, or_from_b32z, and_mask1, and_mask3, and_mask7,
    and_mask15, Nat.shiftLeft_eq, Nat.shiftRight_eq_div_pow]

lemma dec_k1 (c1 : Char) : from_base32z [c1] = [] := by
  simp [from_base32z, load_byte, load_in]

lemma dec_k2 (c1 c2 : Char) :
    from_base32z [c1, c2] = [(from_b32z c1 * 32 + from_b32z c2) / 4] := by
  rw [from5_cons2]
  simp [decode_steps, Nat.shiftRight_eq_div_pow]

lemma dec_k3 (c1 c2 c3 : Char) :
    from_base32z [c1, c2, c3] = [(from_b32z c1 * 32 + from_b32z c2) / 4] := by
  rw [from5_cons2]
  simp [decode_steps, load_byte, load_in, Nat.shiftRight_eq_div_pow]

lemma dec_k4 (c1 c2 c3 c4 : Char) :
    from_base32z [c1, c2, c3, c4] =
      [(from_b32z c1 * 32 + from_b32z c2) / 4,
       (((from_b32z c1 * 32 + from_b32z c2) % 4 * 32 + from_b32z c3) * 32 + from_b32z c4) / 16] := by
  rw [from5_cons2]
  simp [decode_steps, load_byte, load_in, or_from_b32z, and_mask3,
    Nat.shiftLeft_eq, Nat.shiftRight_eq_div_pow]

lemma dec_k5 (c1 c2 c3 c4 c5 : Char) :
    from_base32z [c1, c2, c3, c4, c5] =
      [(from_b32z c1 * 32 + from_b32z c2) / 4,
       (((from_b32z c1 * 32 + from_b32z c2) % 4 * 32 + from_b32z c3) * 32 + from_b32z c4) / 16,
       ((((from_b32z c1 * 32 + from_b32z c2) % 4 * 32 + from_b32z c3) * 32 + from_b32z c4) % 16
          * 32 + from_b32z c5) / 2] := by
  rw [from5_cons2]
  simp [decode_steps, load_byte, load_in, or_from_b32z, and_mask3, and_mask15,
    Nat.shiftLeft_eq, Nat.shiftRight_eq_div_pow]

lemma dec_k6 (c1 c2 c3 c4 c5 c6 : Char) :
    from_base32z [c1, c2, c3, c4, c5, c6] =
      [(from_b32z c1 * 32 + from_b32z c2) / 4,
       (((from_b32z c1 * 32 + from_b32z c2) % 4 * 32 + from_b32z c3) * 32 + from_b32z c4) / 16,
       ((((from_b32z c1 * 32 + from_b32z c2) % 4 * 32 + from_b32z c3) * 32 + from_b32z c4) % 16
          * 32 + from_b32z c5) / 2] := by
  rw [from5_cons2]
  simp [decode_steps, load_byte, load_in, or_from_b32z, and_mask1, and_mask3, and_mask15,
    Nat.shiftLeft_eq, Nat.shiftRight_eq_div_pow]

lemma dec_k7 (c1 c2 c3 c4 c5 c6 c7 : Char) :
    from_base32z [c1, c2, c3, c4, c5, c6, c7] =
      [(from_b32z c1 * 32 + from_b32z c2) / 4,
       (((from_b32z c1 * 32 + from_b32z c2) % 4 * 32 + from_b32z c3) * 32 + from_b32z c4) / 16,
       ((((from_b32z c1 * 32 + from_b32z c2) % 4 * 32 + from_b32z c3) * 32 + from_b32z c4) % 16
          * 32 + from_b32z c5) / 2,
       (((((((from_b32z c1 * 32 + from_b32z c2) % 4 * 32 + from_b32z c3) * 32 + from_b32z c4) % 16
          * 32 + from_b32z c5) % 2) * 32 + from_b32z c6) * 32 + from_b32z c7) / 8] := by
  rw [from5_cons2]
  simp [decode_steps, load_byte, load_in, or_from_b32z, and_mask1, and_mask3, and_mask15,
    Nat.shiftLeft_eq, Nat.shiftRight_eq_div_pow]

lemma enc_tail1 (a : Nat) :
    to_base32z [a] = [to_b32z (a / 8), to_b32z (a % 8 * 4)] := by
  simp [to_base32z, to_base32z_size, encode_steps, and_mask1, and_mask3, and_mask7,
    and_mask15, and_mask31, and_mask63, and_mask127, Nat.shiftRight_eq_div_pow,
    Nat.shiftLeft_eq]

lemma to_base32z_size_zero : to_base32z_size 0 = 0 := by decide

lemma to_base32z_block (a b c d e f0 : Nat) (r : List Nat)
    (hb : b < 256) (hc : c < 256) (hd : d < 256) (he : e < 256) :
    to_base32z (a :: b :: c :: d :: e :: f0 :: r) =
      [to_b32z (a / 8), to_b32z (a % 8 * 4 + b / 64), to_b32z (b / 2 % 32),
       to_b32z (b % 2 * 16 + c / 16), to_b32z (c % 16 * 2 + d / 128),
       to_b32z (d / 4 % 32), to_b32z (d % 4 * 8 + e / 32), to_b32z (e % 32)]
      ++ to_base32z (f0 :: r) := by
  show encode_steps _ _ _ _ = _ ++ encode_steps _ _ _ _
  have hfuel : to_base32z_size (a :: b :: c :: d :: e :: f0 :: r).length + 1 =
      (to_base32z_size (f0 :: r).length + 1) + 8 := by
    simp [to_base32z_size]; omega
  rw [hfuel]
  exact enc_block a b c d e f0 r _ hb hc hd he

lemma enc_length_all : ∀ l : List Nat, (∀ x ∈ l, x < 256) →
    (to_base32z l).length = to_base32z_size l.length := by
  intro l
  induction l using five_block_rec with
  | h0 => intro; rfl
  | h1 a => intro h; simp [enc_tail1, to_base32z_size]
  | h2 a b => intro h; rw [enc_tail2 a b (h b (by simp))]; simp [to_base32z_size]
  | h3 a b c => intro h
                rw [enc_tail3 a b c (h b (by simp)) (h c (by simp))]
                simp [to_base32z_size]
  | h4 a b c d => intro h
                  rw [enc_tail4 a b c d (h b (by simp)) (h c (by simp)) (h d (by simp))]
                  simp [to_base32z_size]
  | h5 a b c d e rest ih =>
    intro h
    match rest with
    | [] =>
      rw [enc_tail5 a b c d e (h b (by simp)) (h c (by simp)) (h d (by simp)) (h e (by simp))]
      simp [to_base32z_size]
    | f0 :: r =>
      rw [to_base32z_block a b c d e f0 r (h b (by simp)) (h c (by simp)) (h d (by simp))
        (h e (by simp))]
      have ihr := ih (fun x hx => h x (List.mem_cons_of_mem _ (List.mem_cons_of_mem _ (List.mem_cons_of_mem _ (List.mem_cons_of_mem _ (List.mem_cons_of_mem _ hx))))))
      simp only [List.length_append, List.length_cons, ihr]
      simp [to_base32z_size]
      omega

lemma to_b32z_mem : ∀ v, v < 32 → to_b32z v ∈ to_b32z_lut := by decide

lemma enc_mem_all : ∀ l : List Nat, (∀ x ∈ l, x < 256) →
    ∀ ch ∈ to_base32z l, ch ∈ to_b32z_lut := by
  intro l
  induction l using five_block_rec with
  | h0 => intro _ ch hch; simp [to_base32z] at hch
  | h1 a =>
    intro h ch hch
    rw [enc_tail1 a] at hch
    have ha := h a (by simp)
    simp at hch
    rcases hch with rfl | rfl <;> exact to_b32z_mem _ (by omega)
  | h2 a b =>
    intro h ch hch
    have ha := h a (by simp); have hb := h b (by simp)
    rw [enc_tail2 a b hb] at hch
    simp at hch
    rcases hch with rfl | rfl | rfl | rfl <;> exact to_b32z_mem _ (by omega)
  | h3 a b c =>
    intro h ch hch
    have ha := h a (by simp); have hb := h b (by simp); have hc := h c (by simp)
    rw [enc_tail3 a b c hb hc] at hch
    simp at hch
    rcases hch with rfl | rfl | rfl | rfl | rfl <;> exact to_b32z_mem _ (by omega)
  | h4 a b c d =>
    intro h ch hch
    have ha := h a (by simp); have hb := h b (by simp); have hc := h c (by simp)
    have hd := h d (by simp)
    rw [enc_tail4 a b c d hb hc hd] at hch
    simp at hch
    rcases hch with rfl | rfl | rfl | rfl | rfl | rfl | rfl <;> exact to_b32z_mem _ (by omega)
  | h5 a b c d e rest ih =>
    intro h ch hch
    have ha := h a (by simp); have hb := h b (by simp); have hc := h c (by simp)
    have hd := h d (by simp); have he := h e (by simp)
    match rest with
    | [] =>
      rw [enc_tail5 a b c d e hb hc hd he] at hch
      simp at hch
      rcases hch with rfl | rfl | rfl | rfl | rfl | rfl | rfl | rfl <;>
        exact to_b32z_mem _ (by omega)
    | f0 :: r =>
      rw [to_base32z_block a b c d e f0 r hb hc hd he] at hch
      rw [List.mem_append] at hch
      rcases hch with hch | hch
      · simp at hch
        rcases hch with rfl | rfl | rfl | rfl | rfl | rfl | rfl | rfl <;>
          exact to_b32z_mem _ (by omega)
      · exact ih (fun x hx => h x (List.mem_cons_of_mem _ (List.mem_cons_of_mem _
          (List.mem_cons_of_mem _ (List.mem_cons_of_mem _ (List.mem_cons_of_mem _ hx))))))
          ch hch

lemma dec_length_all : ∀ s : List Char, (from_base32z s).length = s.length * 5 / 8 := by
  intro s
  induction s using eight_block_rec with
  | g0 => rfl
  | g1 a => rw [dec_k1]; simp
  | g2 a b => rw [dec_k2]; simp
  | g3 a b c => rw [dec_k3]; simp
  | g4 a b c d => rw [dec_k4]; simp
  | g5 a b c d e => rw [dec_k5]; simp
  | g6 a b c d e f => rw [dec_k6]; simp
  | g7 a b c d e f g => rw [dec_k7]; simp
  | g8 c1 c2 c3 c4 c5 c6 c7 c8 rest ih =>
    rw [from5_cons2]
    have hfuel : ((c3 :: c4 :: c5 :: c6 :: c7 :: c8 :: rest).length + 2) * 5 / 8 =
        rest.length * 5 / 8 + 5 := by
      simp; omega
    rw [hfuel, dec_block, dec_step8 _ _ _ rfl]
    simp only [List.length_cons, ih]
    omega

lemma from_to_b32z : ∀ v, v < 32 → from_b32z (to_b32z v) = v := by decide

lemma dec_k8 (c1 c2 c3 c4 c5 c6 c7 c8 : Char) :
    from_base32z [c1, c2, c3, c4, c5, c6, c7, c8] =
      [(from_b32z c1 * 32 + from_b32z c2) / 4,
       (((from_b32z c1 * 32 + from_b32z c2) % 4 * 32 + from_b32z c3) * 32 + from_b32z c4) / 16,
       ((((from_b32z c1 * 32 + from_b32z c2) % 4 * 32 + from_b32z c3) * 32 + from_b32z c4) % 16
          * 32 + from_b32z c5) / 2,
       (((((((from_b32z c1 * 32 + from_b32z c2) % 4 * 32 + from_b32z c3) * 32 + from_b32z c4) % 16
          * 32 + from_b32z c5) % 2) * 32 + from_b32z c6) * 32 + from_b32z c7) / 8,
       (((((((from_b32z c1 * 32 + from_b32z c2) % 4 * 32 + from_b32z c3) * 32 + from_b32z c4) % 16
          * 32 + from_b32z c5) % 2) * 32 + from_b32z c6) * 32 + from_b32z c7) % 8 * 32
          + from_b32z c8] := by
  rw [from5_cons2]
  simp [decode_steps, load_byte, load_in, or_from_b32z, and_mask1, and_mask3, and_mask7,
    and_mask15, Nat.shiftLeft_eq, Nat.shiftRight_eq_div_pow]

lemma roundtrip_all : ∀ l : List Nat, (∀ x ∈ l, x < 256) →
    from_base32z (to_base32z l) = l := by
  intro l
  induction l using five_block_rec with
  | h0 => intro _; rfl
  | h1 a =>
    intro h
    have ha := h a (by simp)
    rw [enc_tail1, dec_k2, from_to_b32z (a / 8) (by omega),
      from_to_b32z (a % 8 * 4) (by omega)]
    simp only [List.cons.injEq, and_true]
    omega
  | h2 a b =>
    intro h
    have ha := h a (by simp); have hb := h b (by simp)
    rw [enc_tail2 a b hb, dec_k4, from_to_b32z (a / 8) (by omega),
      from_to_b32z (a % 8 * 4 + b / 64) (by omega), from_to_b32z (b / 2 % 32) (by omega),
      from_to_b32z (b % 2 * 16) (by omega)]
    simp only [List.cons.injEq, and_true]
    and_intros <;> omega
  | h3 a b c =>
    intro h
    have ha := h a (by simp); have hb := h b (by simp); have hc := h c (by simp)
    rw [enc_tail3 a b c hb hc, dec_k5, from_to_b32z (a / 8) (by omega),
      from_to_b32z (a % 8 * 4 + b / 64) (by omega), from_to_b32z (b / 2 % 32) (by omega),
      from_to_b32z (b % 2 * 16 + c / 16) (by omega), from_to_b32z (c % 16 * 2) (by omega)]
    simp only [List.cons.injEq, and_true]
    and_intros <;> omega
  | h4 a b c d =>
    intro h
    have ha := h a (by simp); have hb := h b (by simp); have hc := h c (by simp)
    have hd := h d (by simp)
    rw [enc_tail4 a b c d hb hc hd, dec_k7, from_to_b32z (a / 8) (by omega),
      from_to_b32z (a % 8 * 4 + b / 64) (by omega), from_to_b32z (b / 2 % 32) (by omega),
      from_to_b32z (b % 2 * 16 + c / 16) (by omega),
      from_to_b32z (c % 16 * 2 + d / 128) (by omega), from_to_b32z (d / 4 % 32) (by omega),
      from_to_b32z (d % 4 * 8) (by omega)]
    simp only [List.cons.injEq, and_true]
    and_intros <;> omega
  | h5 a b c d e rest ih =>
    intro h
    have ha := h a (by simp); have hb := h b (by simp); have hc := h c (by simp)
    have hd := h d (by simp); have he := h e (by simp)
    match rest with
    | [] =>
      rw [enc_tail5 a b c d e hb hc hd he, dec_k8, from_to_b32z (a / 8) (by omega),
        from_to_b32z (a % 8 * 4 + b / 64) (by omega), from_to_b32z (b / 2 % 32) (by omega),
        from_to_b32z (b % 2 * 16 + c / 16) (by omega),
        from_to_b32z (c % 16 * 2 + d / 128) (by omega), from_to_b32z (d / 4 % 32) (by omega),
        from_to_b32z (d % 4 * 8 + e / 32) (by omega), from_to_b32z (e % 32) (by omega)]
      simp only [List.cons.injEq, and_true]
      and_intros <;> omega
    | f0 :: r =>
      have ihr := ih (fun x hx => h x (List.mem_cons_of_mem _ (List.mem_cons_of_mem _
        (List.mem_cons_of_mem _ (List.mem_cons_of_mem _ (List.mem_cons_of_mem _ hx))))))
      rw [to_base32z_block a b c d e f0 r hb hc hd he]
      rw [List.cons_append, List.cons_append, List.cons_append, List.cons_append,
        List.cons_append, List.cons_append, List.cons_append, List.cons_append,
        List.nil_append]
      rw [from5_cons2]
      have hfuel : ((to_b32z (b / 2 % 32) :: to_b32z (b % 2 * 16 + c / 16) ::
          to_b32z (c % 16 * 2 + d / 128) :: to_b32z (d / 4 % 32) ::
          to_b32z (d % 4 * 8 + e / 32) :: to_b32z (e % 32) ::
          to_base32z (f0 :: r)).length + 2) * 5 / 8 =
          (to_base32z (f0 :: r)).length * 5 / 8 + 5 := by
        simp only [List.length_cons]
        omega
      rw [hfuel, dec_block, dec_step8 _ _ _ rfl, ihr]
      rw [from_to_b32z (a / 8) (by omega),
        from_to_b32z (a % 8 * 4 + b / 64) (by omega), from_to_b32z (b / 2 % 32) (by omega),
        from_to_b32z (b % 2 * 16 + c / 16) (by omega),
        from_to_b32z (c % 16 * 2 + d / 128) (by omega), from_to_b32z (d / 4 % 32) (by omega),
        from_to_b32z (d % 4 * 8 + e / 32) (by omega), from_to_b32z (e % 32) (by omega)]
      simp only [List.cons.injEq, and_true]
      and_intros <;> omega

lemma char_ok_iff : ∀ n, n < 256 →
    ((!(from_b32z_lut n == 0 && !(n == Char.toNat 'y' || n == Char.toNat 'Y'))) = true ↔
      n ∈ b32z_allowed_chars.map Char.toNat) := by decide

lemma char_toNat_inj {c d : Char} (h : c.toNat = d.toNat) : c = d :=
  Char.ext (UInt32.ext h)

lemma mem_allowed_iff (c : Char) :
    c ∈ b32z_allowed_chars ↔ c.toNat ∈ b32z_allowed_chars.map Char.toNat := by
  constructor
  · intro h; exact List.mem_map_of_mem _ h
  · intro h
    obtain ⟨d, hd, hdc⟩ := List.mem_map.mp h
    exact (char_toNat_inj hdc.symm) ▸ hd

lemma is_base32z_iff (S : List Char) (hb : ∀ c ∈ S, c.toNat < 256) :
    is_base32z S = true ↔
      ((∀ c ∈ S, c ∈ b32z_allowed_chars) ∧
        ¬(S.length % 8 = 1 ∨ S.length % 8 = 3 ∨ S.length % 8 = 6)) := by
  unfold is_base32z
  split
  · next hcond =>
    simp only [Bool.false_eq_true, false_iff]
    intro hx
    apply hx.2
    have := hcond
    simp at this
    tauto
  · next hcond =>
    simp only [List.all_eq_true]
    constructor
    · intro hall
      refine ⟨fun c hc => ?_, by have := hcond; simp at this; tauto⟩
      have h1 := hall c hc
      have h2 := (char_ok_iff (c.toNat % 256) (by omega)).mp h1
      rw [Nat.mod_eq_of_lt (hb c hc)] at h2
      exact (mem_allowed_iff c).mpr h2
    · intro hx c hc
      have h2 := (mem_allowed_iff c).mp (hx.1 c hc)
      rw [← Nat.mod_eq_of_lt (hb c hc)] at h2
      exact (char_ok_iff (c.toNat % 256) (by omega)).mpr h2

lemma is_base32z_bad_len (S : List Char)
    (h : S.length % 8 = 1 ∨ S.length % 8 = 3 ∨ S.length % 8 = 6) :
    is_base32z S = false := by
  unfold is_base32z
  split
  · rfl
  · next hcond =>
    exfalso
    apply hcond
    rcases h with h | h | h <;> simp [h]

lemma upper_from_b32z : ∀ c ∈ to_b32z_lut, from_b32z (upperB32 c) = from_b32z c := by decide

lemma upper_char_ok : ∀ c ∈ to_b32z_lut,
    (!(from_b32z_lut ((upperB32 c).toNat % 256) == 0 &&
      !((upperB32 c).toNat % 256 == Char.toNat 'y' ||
        (upperB32 c).toNat % 256 == Char.toNat 'Y'))) = true := by decide

lemma lower_char_ok : ∀ c ∈ to_b32z_lut,
    (!(from_b32z_lut (c.toNat % 256) == 0 &&
      !(c.toNat % 256 == Char.toNat 'y' || c.toNat % 256 == Char.toNat 'Y'))) = true := by decide

lemma decode_steps_congr : ∀ fuel i bits S T, S.map from_b32z = T.map from_b32z →
    decode_steps fuel i bits S = decode_steps fuel i bits T := by
  intro fuel
  induction fuel with
  | zero => intros; rfl
  | succ f ih =>
    intro i bits S T hmap
    match S, T, hmap with
    | [], [], _ => rfl
    | [], _ :: _, hmap => simp at hmap
    | _ :: _, [], hmap => simp at hmap
    | [c], c' :: c2' :: r', hmap => simp at hmap
    | c :: c2 :: r, [c'], hmap => simp at hmap
    | [c], [c'], hmap =>
      simp only [List.map_cons, List.map_nil, List.cons.injEq, and_true] at hmap
      simp [decode_steps, load_byte, load_in, hmap]
    | c :: c2 :: r, c' :: c2' :: r', hmap =>
      simp only [List.map_cons, List.cons.injEq] at hmap
      obtain ⟨h1, h2, h3⟩ := hmap
      simp only [decode_steps, load_byte, load_in, h1, h2]
      split_ifs with hb
      · exact congrArg _ (ih _ _ _ _ h3)
      · exact congrArg _ (ih _ _ _ _ (by simp [h2, h3]))

lemma from_base32z_congr (S T : List Char) (hmap : S.map from_b32z = T.map from_b32z) :
    from_base32z S = from_base32z T := by
  have hlen : S.length = T.length := by
    have := congrArg List.length hmap
    simpa using this
  match S, T, hmap with
  | [], [], _ => rfl
  | [], _ :: _, hmap => simp at hmap
  | _ :: _, [], hmap => simp at hmap
  | c :: r, c' :: r', hmap =>
    simp only [List.map_cons, List.cons.injEq] at hmap
    obtain ⟨h1, h2⟩ := hmap
    simp only [from_base32z, load_byte, load_in, h1]
    rw [show (c :: r).length = (c' :: r').length from hlen]
    split_ifs with hb
    · match r, r', h2 with
      | [], [], _ => rfl
      | x :: xs, y :: ys, h2 =>
        simp only [List.map_cons, List.cons.injEq] at h2
        simp only [h2.1]
        exact decode_steps_congr _ _ _ _ _ h2.2
    · exact decode_steps_congr _ _ _ _ _ h2

lemma is_base32z_len_cond (S : List Char) (h : is_base32z S = true) :
    ¬(S.length % 8 = 1 ∨ S.length % 8 = 3 ∨ S.length % 8 = 6) := by
  unfold is_base32z at h
  split at h
  · exact absurd h (by simp)
  · next hcond => simp at hcond; omega

lemma forall2_map_eq (S T : List Char)
    (hrel : List.Forall₂ (fun c c' => c' = c ∨ c' = upperB32 c) S T)
    (hlow : ∀ c ∈ S, c ∈ to_b32z_lut) :
    T.map from_b32z = S.map from_b32z := by
  induction hrel with
  | nil => rfl
  | @cons c c' S0 T0 hr ht ih =>
    simp only [List.map_cons, List.cons.injEq]
    refine ⟨?_, ih (fun x hx => hlow x (List.mem_cons_of_mem _ hx))⟩
    rcases hr with rfl | rfl
    · rfl
    · exact upper_from_b32z c (hlow c (by simp))

lemma forall2_all_ok (S T : List Char)
    (hrel : List.Forall₂ (fun c c' => c' = c ∨ c' = upperB32 c) S T)
    (hlow : ∀ c ∈ S, c ∈ to_b32z_lut) :
    (T.all fun ch =>
      !(from_b32z_lut (ch.toNat % 256) == 0 &&
        !(ch.toNat % 256 == Char.toNat 'y' || ch.toNat % 256 == Char.toNat 'Y'))) = true := by
  induction hrel with
  | nil => rfl
  | @cons c c' S0 T0 hr ht ih =>
    simp only [List.all_cons, Bool.and_eq_true]
    refine ⟨?_, ih (fun x hx => hlow x (List.mem_cons_of_mem _ hx))⟩
    rcases hr with rfl | rfl
    · exact lower_char_ok _ (hlow _ (by simp))
    · exact upper_char_ok _ (hlow _ (by simp))

lemma case_insensitive_all (S T : List Char) (hv : is_base32z S = true)
    (hlow : ∀ c ∈ S, c ∈ to_b32z_lut)
    (hrel : List.Forall₂ (fun c c' => c' = c ∨ c' = upperB32 c) S T) :
    is_base32z T = true ∧ from_base32z T = from_base32z S := by
  have hlen : S.length = T.length := hrel.length_eq
  have hcond := is_base32z_len_cond S hv
  constructor
  · unfold is_base32z
    split
    · next hbad => rw [← hlen] at hbad; simp at hbad; omega
    · exact forall2_all_ok S T hrel hlow
  · exact from_base32z_congr T S (forall2_map_eq S T hrel hlow)

lemma from_base32z_size_valid (k : Nat) (h : ¬(k % 8 = 1 ∨ k % 8 = 3 ∨ k % 8 = 6)) :
    from_base32z_size k = k * 5 / 8 := by
  unfold from_base32z_size
  split
  · rfl
  · have h8 : k % 8 = 0 ∨ k % 8 = 2 ∨ k % 8 = 4 ∨ k % 8 = 5 ∨ k % 8 = 7 := by omega
    rcases h8 with h8 | h8 | h8 | h8 | h8 <;> omega

/-- C1: for every byte sequence `B`, decoding the encoding returns the
original input: `from_base32z (to_base32z B) = B`. -/
theorem base32z_round_trip (B : List Nat) (hB : ∀ x ∈ B, x < 256) :
    from_base32z (to_base32z B) = B :=
  roundtrip_all B hB

/-- Witness for C1 at a concrete input. -/
theorem base32z_round_trip_witness :
    from_base32z (to_base32z [0, 222, 173, 190, 239, 1, 255]) =
      [0, 222, 173, 190, 239, 1, 255] :=
  base32z_round_trip [0, 222, 173, 190, 239, 1, 255] (by decide)

/-- C2: `to_base32z B` has length exactly `to_base32z_size B.length` and all
its characters are lowercase symbols of the 32-character alphabet; value 0
encodes to 'y', 5 to 'f', 17 to 't', 20 to 'w', 31 to '9'; the empty
sequence encodes to the empty string and `[0x00]` to `"yy"`. -/
theorem to_base32z_spec :
    (∀ B : List Nat, (∀ x ∈ B, x < 256) →
      (to_base32z B).length = to_base32z_size B.length ∧
        ∀ ch ∈ to_base32z B, ch ∈ to_b32z_lut) ∧
    to_b32z 0 = 'y' ∧ to_b32z 5 = 'f' ∧ to_b32z 17 = 't' ∧ to_b32z 20 = 'w' ∧
    to_b32z 31 = '9' ∧ to_base32z [] = [] ∧ to_base32z [0] = ['y', 'y'] := by
  refine ⟨fun B hB => ⟨enc_length_all B hB, enc_mem_all B hB⟩, ?_, ?_, ?_, ?_, ?_, ?_, ?_⟩
    <;> decide

/-- Witness for C2 at a concrete input. -/
theorem to_base32z_spec_witness :
    (to_base32z [255, 0, 16]).length = to_base32z_size 3 ∧
      ∀ ch ∈ to_base32z [255, 0, 16], ch ∈ to_b32z_lut :=
  to_base32z_spec.1 [255, 0, 16] (by decide)

/-- C3: `is_base32z S` is true iff every character of `S` is a member of the
32-symbol alphabet (case-insensitively) and `S.length % 8 ∉ {1, 3, 6}`;
`"9990!"` is rejected, and any string of length `≡ 1 (mod 8)` is rejected
regardless of content. -/
theorem is_base32z_spec :
    (∀ S : List Char, (∀ c ∈ S, c.toNat < 256) →
      (is_base32z S = true ↔
        ((∀ c ∈ S, c ∈ b32z_allowed_chars) ∧
          ¬(S.length % 8 = 1 ∨ S.length % 8 = 3 ∨ S.length % 8 = 6)))) ∧
    is_base32z ['9', '9', '9', '0', '!'] = false ∧
    (∀ S : List Char, S.length % 8 = 1 → is_base32z S = false) := by
  refine ⟨is_base32z_iff, by decide, fun S h => is_base32z_bad_len S (Or.inl h)⟩

/-- Witness for C3 at a concrete input. -/
theorem is_base32z_spec_witness :
    (is_base32z ['y', 'B'] = true ↔
      ((∀ c ∈ ['y', 'B'], c ∈ b32z_allowed_chars) ∧
        ¬(([ 'y', 'B'] : List Char).length % 8 = 1 ∨
          (['y', 'B'] : List Char).length % 8 = 3 ∨
          (['y', 'B'] : List Char).length % 8 = 6))) ∧
    is_base32z ['w'] = false :=
  ⟨is_base32z_spec.1 ['y', 'B'] (by decide),
   is_base32z_spec.2.2 ['w'] (by decide)⟩

/-- C4: `[0xFF, 0xFF]` encodes to `"999o"`, and `"999o"`, `"9999"`, `"9993"`
and `"999z"` (differing only in the final symbol's padding bits) all decode
to `[0xFF, 0xFF]`. -/
theorem padding_tolerance :
    to_base32z [255, 255] = ['9', '9', '9', 'o'] ∧
    from_base32z ['9', '9', '9', 'o'] = [255, 255] ∧
    from_base32z ['9', '9', '9', '9'] = [255, 255] ∧
    from_base32z ['9', '9', '9', '3'] = [255, 255] ∧
    from_base32z ['9', '9', '9', 'z'] = [255, 255] := by
  refine ⟨?_, ?_, ?_, ?_, ?_⟩ <;> decide

/-- C5: for a valid lowercase base32z string `S`, uppercasing any subset of
its letters yields a string `T` that still satisfies `is_base32z` and
decodes to exactly the same bytes. -/
theorem base32z_case_insensitive (S T : List Char) (hv : is_base32z S = true)
    (hlow : ∀ c ∈ S, c ∈ to_b32z_lut)
    (hrel : List.Forall₂ (fun c c' => c' = c ∨ c' = upperB32 c) S T) :
    is_base32z T = true ∧ from_base32z T = from_base32z S :=
  case_insensitive_all S T hv hlow hrel

/-- Witness for C5 at a concrete input. -/
theorem base32z_case_insensitive_witness :
    is_base32z ['Y', 'b', 'N', 'd'] = true ∧
      from_base32z ['Y', 'b', 'N', 'd'] = from_base32z ['y', 'b', 'n', 'd'] :=
  base32z_case_insensitive ['y', 'b', 'n', 'd'] ['Y', 'b', 'N', 'd'] (by decide) (by decide)
    (.cons (by decide) (.cons (by decide) (.cons (by decide) (.cons (by decide) .nil))))

/-- C6: for every sequence accepted by `is_base32z`, `from_base32z` produces
exactly `from_base32z_size` of its length bytes. -/
theorem from_base32z_length (S : List Char) (hv : is_base32z S = true) :
    (from_base32z S).length = from_base32z_size S.length := by
  rw [dec_length_all S, from_base32z_size_valid S.length (is_base32z_len_cond S hv)]

/-- Witness for C6 at a concrete input. -/
theorem from_base32z_length_witness :
    (from_base32z ['9', '9', '9', 'o']).length = from_base32z_size 4 :=
  from_base32z_length ['9', '9', '9', 'o'] (by decide)

/-- C7: `to_base32z_size n` is the ceiling of `n * 8 / 5`; in particular
`to_base32z_size 2 = 4`. -/
theorem to_base32z_size_is_ceil :
    (∀ n : Nat, to_base32z_size n = (n * 8) ⌈/⌉ 5) ∧ to_base32z_size 2 = 4 := by
  refine ⟨fun n => ?_, by decide⟩
  rw [Nat.ceilDiv_eq_add_pred_div]
  rfl

/-- C8: with `bits = k * 5`, `from_base32z_size k` equals `bits / 8` when
`bits % 8 < 5` (equivalently `k % 8 ∉ {1, 3, 6}`), and 0, the
invalid-length marker, otherwise; `from_base32z_size 4 = 2`. -/
theorem from_base32z_size_spec :
    (∀ k : Nat, (k * 5 % 8 < 5 ↔ ¬(k % 8 = 1 ∨ k % 8 = 3 ∨ k % 8 = 6)) ∧
      (¬(k % 8 = 1 ∨ k % 8 = 3 ∨ k % 8 = 6) → from_base32z_size k = k * 5 / 8) ∧
      ((k % 8 = 1 ∨ k % 8 = 3 ∨ k % 8 = 6) → from_base32z_size k = 0)) ∧
    from_base32z_size 4 = 2 := by
  have hres : ∀ k : Nat, k % 8 = 0 ∨ k % 8 = 1 ∨ k % 8 = 2 ∨ k % 8 = 3 ∨ k % 8 = 4 ∨
      k % 8 = 5 ∨ k % 8 = 6 ∨ k % 8 = 7 := fun k => by omega
  refine ⟨fun k => ⟨?_, fun h => from_base32z_size_valid k h, fun h => ?_⟩, by decide⟩
  · rcases hres k with h | h | h | h | h | h | h | h <;> omega
  · unfold from_base32z_size
    split
    · next hlt => rcases hres k with h8 | h8 | h8 | h8 | h8 | h8 | h8 | h8 <;> omega
    · rfl

/-- Witness for C8 at concrete inputs. -/
theorem from_base32z_size_spec_witness :
    from_base32z_size 8 = 5 ∧ from_base32z_size 11 = 0 := by
  refine ⟨?_, ?_⟩
  · have h := (from_base32z_size_spec.1 8).2.1 (by decide)
    simpa using h
  · have h := (from_base32z_size_spec.1 11).2.2 (by decide)
    simpa using h

/-- C9: every encoded length computed from a byte count is accepted by the
decoding-size function and maps back to the same byte count. -/
theorem size_round_trip : ∀ n : Nat, from_base32z_size (to_base32z_size n) = n := by
  intro n
  unfold to_base32z_size from_base32z_size
  have hres : n % 5 = 0 ∨ n % 5 = 1 ∨ n % 5 = 2 ∨ n % 5 = 3 ∨ n % 5 = 4 := by omega
  split <;> rcases hres with h | h | h | h | h <;> omega

/-- C10: `from_base32z` is total on every character sequence and produces
exactly `⌊length * 5 / 8⌋` bytes; the 256-entry inverse table keeps every
lookup in bounds (all values are below 32) and decodes every non-alphabet
byte as the 5-bit value 0. -/
theorem from_base32z_total :
    (∀ S : List Char, (from_base32z S).length = S.length * 5 / 8) ∧
    (∀ n : Nat, n < 256 → from_b32z_lut n < 32) ∧
    (∀ n : Nat, n < 256 → n ∉ b32z_allowed_chars.map Char.toNat → from_b32z_lut n = 0) := by
  refine ⟨dec_length_all, from_b32z_lut_lt, ?_⟩
  decide

/-- Witness for C10 at concrete inputs. -/
theorem from_base32z_total_witness :
    from_b32z_lut 200 < 32 ∧ from_b32z_lut 33 = 0 :=
  ⟨from_base32z_total.2.1 200 (by decide), from_base32z_total.2.2 33 (by decide) (by decide)⟩
